import Mathlib

/-!
Verification development for the tunenote repository: a real-time musical
note detector.  The Go source is shallowly embedded: float64/float32
arithmetic is modelled over the reals, slices over lists, times (in
milliseconds) and dB values handled by the main-loop state machine over the
rationals, and the heap slice semantics of the capture collaborator over an
explicit store.
-/

namespace TuneNote

/-! ## Pitch package (internal/pitch): note mapping -/

/-- Musical note names in chromatic order (pitch.go `noteNames`). -/
def noteNames : List String :=
  "C" :: "C#" :: "D" :: "D#" :: "E" :: "F" ::
    "F#" :: "G" :: "G#" :: "A" :: "A#" :: "B" :: []

/-- A musical note (pitch.go `Note`). -/
structure Note where
  Name : String
  Octave : ℤ
  Frequency : ℝ
  Cents : ℝ

/-- Go's `math.Round`: round to the nearest integer, halves away from zero. -/
noncomputable def goRound (x : ℝ) : ℤ :=
  if 0 ≤ x then ⌊x + 1 / 2⌋ else ⌈x - 1 / 2⌉

/-- pitch.go `frequencyToNote`: convert a frequency in Hz to a `Note`.
`math.Mod` on the integer-valued `roundedSemitones + 9` is truncated-division
remainder, i.e. `Int.tmod`; `int(math.Floor …)` is the real floor. -/
noncomputable def frequencyToNote (frequency : ℝ) : Note :=
  let semitones : ℝ := 12 * Real.logb 2 (frequency / 440)
  let roundedSemitones : ℤ := goRound semitones
  let cents : ℝ := 100 * (semitones - (roundedSemitones : ℝ))
  let noteIndex0 : ℤ := Int.tmod (roundedSemitones + 9) 12
  let noteIndex : ℤ := if noteIndex0 < 0 then noteIndex0 + 12 else noteIndex0
  let octave : ℤ := 4 + ⌊((roundedSemitones : ℝ) + 9) / 12⌋
  { Name := noteNames.getD noteIndex.toNat ""
    Octave := octave
    Frequency := frequency
    Cents := cents }

/-! ## Audio package: buffers -/

/-- An audio buffer (capture.go `AudioBuffer`); float32 samples are modelled
as reals. -/
structure AudioBuffer where
  Samples : List ℝ
  SampleRate : ℕ

/-- Errors of the pitch package (pitch.go `ErrEmptyBuffer`,
`ErrVolumeThreshold`). -/
inductive PitchError where
  | emptyBuffer
  | volumeThreshold
deriving DecidableEq

/-! ## Pitch package: the FFT detector -/

/-- fft_detector.go `FFTDetector`: configuration of the FFT-based pitch
detector. -/
structure FFTDetector where
  windowSize : ℕ
  minFrequency : ℝ
  maxFrequency : ℝ
  noiseFloor : ℝ
  peakThreshold : ℝ
  volumeThreshold : ℝ

/-- fft_detector.go `NewFFTDetector`: the default configuration. -/
def NewFFTDetector (windowSize : ℕ) : FFTDetector :=
  { windowSize := windowSize
    minFrequency := 80.0
    maxFrequency := 1200.0
    noiseFloor := 0.01
    peakThreshold := 0.2
    volumeThreshold := 0.005 }

/-- Sum of squared samples (the `sumSquares` accumulator in `DetectPitch`). -/
def sumSquares (samples : List ℝ) : ℝ :=
  (samples.map fun s => s * s).sum

/-- Peak absolute sample value (the `peakValue` accumulator in
`DetectPitch`, starting from 0). -/
def peakValue (samples : List ℝ) : ℝ :=
  (samples.map fun s => |s|).foldl max 0

/-- RMS volume of a buffer as computed in `DetectPitch`:
`sqrt(sumSquares / len)`. -/
noncomputable def rmsVolume (samples : List ℝ) : ℝ :=
  Real.sqrt (sumSquares samples / (samples.length : ℝ))

/-- Approximate dB level as computed in `DetectPitch`: `20 * log10 rms` when
`rms > 1e-7`, else the saturating default `-100`. -/
noncomputable def dbLevelOf (rms : ℝ) : ℝ :=
  if rms > 0.0000001 then 20 * Real.logb 10 rms else -100

open Classical in
/-- The signal gate of `DetectPitch` (fft_detector.go lines 40-70): the frame
is rejected when RMS is below `volumeThreshold`, or the dB level is below
-50, or the peak sample is below `volumeThreshold * 2`. -/
noncomputable def gateRejects (d : FFTDetector) (samples : List ℝ) : Prop :=
  rmsVolume samples < d.volumeThreshold ∨
    dbLevelOf (rmsVolume samples) < -50 ∨
    peakValue samples < d.volumeThreshold * 2

/-- fft_detector.go `applyHannWindow`: multiply sample `i` by the Hann
coefficient `0.5 * (1 - cos(2*pi*i/(len-1)))`. -/
noncomputable def applyHannWindow (samples : List ℝ) : List ℝ :=
  (List.range samples.length).map fun i =>
    samples.getD i 0 *
      (0.5 * (1 - Real.cos (2 * Real.pi * (i : ℝ) / ((samples.length : ℝ) - 1))))

/-- The discrete Fourier transform computed by `fft.FFT` (go-dsp): standard
unnormalised DFT, bin `k` is the sum of `x_j * exp(-2*pi*I*j*k/N)`. -/
noncomputable def fftDFT (x : List ℂ) : List ℂ :=
  (List.range x.length).map fun k =>
    ∑ j ∈ Finset.range x.length,
      x.getD j 0 *
        Complex.exp (-(2 * (Real.pi : ℂ) * Complex.I * (j : ℂ) * (k : ℂ)) / (x.length : ℂ))

/-- fft_detector.go `Peak`: a peak in the frequency spectrum. -/
structure Peak where
  Bin : ℕ
  Magnitude : ℝ
  Frequency : ℝ

/-- Magnitude of bin `i` of the half spectrum (`cmplx.Abs(spectrumHalf[i])`;
out-of-range indices, never used by the scans, read as 0). -/
noncomputable def magAt (spectrumHalf : List ℂ) (i : ℕ) : ℝ :=
  Complex.abs (spectrumHalf.getD i 0)

/-- Frequency resolution in Hz per bin (`binSizeHz` in
`findFundamentalFrequency`). -/
noncomputable def binSizeHzOf (sampleRate n : ℕ) : ℝ :=
  (sampleRate : ℝ) / (n : ℝ)

/-- The minimum scanned bin: `int(minFrequency / binSizeHz)` clamped up
to 1 (avoid the DC component). -/
noncomputable def minBinOf (d : FFTDetector) (sampleRate n : ℕ) : ℕ :=
  max (⌊d.minFrequency / binSizeHzOf sampleRate n⌋).toNat 1

/-- The maximum scanned bin: `int(maxFrequency / binSizeHz)` clamped down to
`len(spectrumHalf) - 1` where `len(spectrumHalf) = n / 2`. -/
noncomputable def maxBinOf (d : FFTDetector) (sampleRate n : ℕ) : ℕ :=
  min (⌊d.maxFrequency / binSizeHzOf sampleRate n⌋).toNat (n / 2 - 1)

/-- Maximum magnitude over bins `minBin .. maxBin`, starting from 0
(the normalisation loop of `findFundamentalFrequency`). -/
noncomputable def maxMagnitudeOf (sh : List ℂ) (minBin maxBin : ℕ) : ℝ :=
  ((List.range (maxBin + 1 - minBin)).map fun j => magAt sh (minBin + j)).foldl max 0

/-- The candidate-peak scan of `findFundamentalFrequency`: interior bins
`minBin+1 .. maxBin-1`; a bin is a peak when its magnitude exceeds both
neighbours and `maxMagnitude * peakThreshold`; its frequency is refined by
quadratic interpolation unless the denominator is exactly zero. -/
noncomputable def peaksOf (sh : List ℂ) (minBin maxBin : ℕ)
    (maxMagnitude binSizeHz peakThreshold : ℝ) : List Peak :=
  (List.range (maxBin - (minBin + 1))).filterMap fun jj =>
    let i := minBin + 1 + jj
    let prev := magAt sh (i - 1)
    let current := magAt sh i
    let next := magAt sh (i + 1)
    if current > prev ∧ current > next ∧ current > maxMagnitude * peakThreshold then
      some { Bin := i
             Magnitude := current
             Frequency :=
               if prev - 2 * current + next ≠ 0 then
                 ((i : ℝ) + 0.5 * (prev - next) / (prev - 2 * current + next)) * binSizeHz
               else (i : ℝ) * binSizeHz }
    else none

open Classical in
/-- Insertion step of a magnitude-descending sort of the peak list.  The Go
code delegates to `sort.Slice` with comparator `Magnitude >`; `sort.Slice`
does not document the relative order of equal-magnitude peaks, and this
stable realisation is one compliant refinement of it (it agrees with Go's
insertion sort, used for runs of fewer than 12 elements). -/
noncomputable def insertPeakByMagnitude (p : Peak) : List Peak → List Peak
  | [] => [p]
  | q :: rest =>
    if p.Magnitude > q.Magnitude then p :: q :: rest
    else q :: insertPeakByMagnitude p rest

open Classical in
/-- Magnitude-descending insertion sort of the peak list (see
`insertPeakByMagnitude` for its relation to `sort.Slice`). -/
noncomputable def sortPeaksByMagnitude : List Peak → List Peak
  | [] => []
  | p :: rest => insertPeakByMagnitude p (sortPeaksByMagnitude rest)

/-- The first half of the spectrum used by `findFundamentalFrequency`
(`spectrum[:len(spectrum)/2]`, Nyquist). -/
noncomputable def spectrumHalfOf (spectrum : List ℂ) : List ℂ :=
  spectrum.take (spectrum.length / 2)

/-- The candidate peak list computed by `findFundamentalFrequency` for a
spectrum at a sample rate: the `peaksOf` scan at the pipeline's half
spectrum, bin bounds, in-band maximum magnitude and bin size. -/
noncomputable def pipelinePeaks (d : FFTDetector) (spectrum : List ℂ) (sampleRate : ℕ) :
    List Peak :=
  peaksOf (spectrumHalfOf spectrum) (minBinOf d sampleRate spectrum.length)
    (maxBinOf d sampleRate spectrum.length)
    (maxMagnitudeOf (spectrumHalfOf spectrum) (minBinOf d sampleRate spectrum.length)
      (maxBinOf d sampleRate spectrum.length))
    (binSizeHzOf sampleRate spectrum.length) d.peakThreshold

/-- fft_detector.go `findFundamentalFrequency`: find the fundamental
frequency by peak detection over the first half of the spectrum, returning
the default 440.0 when the in-band maximum is below the noise floor or no
candidate peak exists. -/
noncomputable def findFundamentalFrequency (d : FFTDetector) (spectrum : List ℂ)
    (sampleRate : ℕ) : ℝ :=
  if maxMagnitudeOf (spectrumHalfOf spectrum) (minBinOf d sampleRate spectrum.length)
      (maxBinOf d sampleRate spectrum.length) < d.noiseFloor then 440.0
  else
    match sortPeaksByMagnitude (pipelinePeaks d spectrum sampleRate) with
    | [] => 440.0
    | p :: _ => p.Frequency

open Classical in
/-- The final range check and note conversion of `DetectPitch`
(fft_detector.go lines 87-93): frequencies outside
`[minFrequency, maxFrequency]` are rejected as noise, otherwise the note is
produced. -/
noncomputable def classifyFrequency (d : FFTDetector) (peakFreq : ℝ) : Except PitchError Note :=
  if peakFreq < d.minFrequency ∨ peakFreq > d.maxFrequency then .error .volumeThreshold
  else .ok (frequencyToNote peakFreq)

open Classical in
/-- fft_detector.go `DetectPitch`: empty-buffer check, signal gate, Hann
window, FFT, peak extraction, range check, note conversion. -/
noncomputable def DetectPitch (d : FFTDetector) (buffer : AudioBuffer) : Except PitchError Note :=
  if buffer.Samples = [] then .error .emptyBuffer
  else
    let rms := rmsVolume buffer.Samples
    let dbLevel := dbLevelOf rms
    if rms < d.volumeThreshold ∨ dbLevel < -50 then .error .volumeThreshold
    else if peakValue buffer.Samples < d.volumeThreshold * 2 then .error .volumeThreshold
    else
      let windowedSamples := applyHannWindow buffer.Samples
      let spectrum := fftDFT (windowedSamples.map fun s => (s : ℂ))
      classifyFrequency d (findFundamentalFrequency d spectrum buffer.SampleRate)

/-! ## Main loop (cmd/main.go): onset/stability state machine

The audio goroutine's loop body is embedded as a step function.  Times are
rationals in milliseconds.  Per frame the loop consumes the buffer length,
the computed RMS/dB levels and, when reached, the outcome of
`DetectPitch` on that frame's buffer (`some note` for success, `none` for
any detection error), and emits UI events. -/

/-- The loop-local mutable variables of `main` (cmd/main.go lines 83-87). -/
structure LoopState where
  lastDebugTime : ℚ
  lastNoteTime : ℚ
  isVolumeRising : Bool
  volumeRiseTime : ℚ
  lastDB : ℚ

/-- Per-frame input of the main loop: current time, buffer length, audio
levels, and the pitch-detection outcome for the frame's buffer. -/
structure FrameInput where
  now : ℚ
  bufLen : ℕ
  rms : ℚ
  db : ℚ
  detected : Option Note

/-- Messages the main loop sends to the UI program. -/
inductive UIEvent where
  | level (rms db : ℚ)
  | clear
  | note (n : Note)

/-- cmd/main.go `stabilizationDelay`: 300 ms. -/
def stabilizationDelay : ℚ := 300

/-- The initial loop state at startup: debug and note timers set to the
start time, not rising, zero rise time, `lastDB = -100`. -/
def initLoopState (t0 : ℚ) : LoopState :=
  { lastDebugTime := t0, lastNoteTime := t0, isVolumeRising := false
    volumeRiseTime := 0, lastDB := -100 }

/-- One iteration of the audio-processing loop body (cmd/main.go lines
96-172): skip small buffers; rate-limited level debug message; onset (rising
volume) tracking; aggressive silence clearing below -30 dB; stabilization
delay after an onset; pitch detection with errors clearing the display; and
rate-limited note emission. -/
def loopStep (s0 : LoopState) (f : FrameInput) : LoopState × List UIEvent :=
  if f.bufLen < 512 then (s0, [])
  else
    let dbgSend := f.now - s0.lastDebugTime > 200
    let s1 := if dbgSend then { s0 with lastDebugTime := f.now } else s0
    let evs1 : List UIEvent := if dbgSend then [.level f.rms f.db] else []
    if f.db > s1.lastDB + 3 ∧ f.db > -40 ∧ s1.isVolumeRising = false then
      ({ s1 with isVolumeRising := true, volumeRiseTime := f.now, lastDB := f.db }, evs1)
    else
      let s2 := { s1 with lastDB := f.db }
      if f.db < -30 then
        ({ s2 with isVolumeRising := false }, evs1 ++ [.clear])
      else if s2.isVolumeRising = true ∧ f.now - s2.volumeRiseTime < stabilizationDelay then
        (s2, evs1)
      else
        let s3 := { s2 with isVolumeRising := false }
        match f.detected with
        | none => (s3, evs1 ++ [.clear])
        | some n =>
          if f.now - s3.lastNoteTime > 80 then
            ({ s3 with lastNoteTime := f.now }, evs1 ++ [.note n])
          else (s3, evs1)

/-- Run the loop over a list of frames, collecting all emitted events. -/
def runLoop (s : LoopState) : List FrameInput → LoopState × List UIEvent
  | [] => (s, [])
  | f :: rest =>
    let sr := loopStep s f
    let rec2 := runLoop sr.1 rest
    (rec2.1, sr.2 ++ rec2.2)

/-! ## UI model (internal/ui/model.go) -/

/-- model.go `maxTimelineEntries`: maximum entries in the timeline. -/
def maxTimelineEntries : ℕ := 50

/-- model.go `TimelineEntry`: a note in the timeline with timestamp. -/
structure TimelineEntry where
  Note : Note
  Timestamp : ℚ

/-- model.go `Model`: the UI state. -/
structure UIModel where
  currentNote : Option Note
  timeline : List TimelineEntry
  lastUpdate : ℚ
  width : ℤ
  height : ℤ
  isSilence : Bool
  silenceSince : ℚ
  audioRMS : ℚ
  audioDB : ℚ
  showDebug : Bool

/-- The bubbletea messages handled by `Model.Update`. -/
inductive TeaMsg where
  | key (s : String)
  | windowSize (w h : ℤ)
  | tick (t : ℚ)
  | updateNote (n : Note)
  | updateAudioLevel (rms db : ℚ)
  | clearNote

/-- model.go `NewModel`: the initial UI model (Go zero values for the
remaining fields). -/
def NewModel (now : ℚ) : UIModel :=
  { currentNote := none, timeline := [], lastUpdate := now, width := 0, height := 0
    isSilence := true, silenceSince := now, audioRMS := 0, audioDB := 0, showDebug := true }

/-- model.go `Model.Update` (lines 145-214); `now` stands for the
`time.Now()` calls.  Returned commands (quit, tick) do not change the model
and are dropped. -/
def Update (m : UIModel) (now : ℚ) (msg : TeaMsg) : UIModel :=
  match msg with
  | .key s => if s = "d" then { m with showDebug := !m.showDebug } else m
  | .windowSize w h => { m with width := w, height := h }
  | .tick _ => m
  | .updateNote n =>
    let addToTimeline :=
      match m.currentNote with
      | some c => !(n.Name = c.Name ∧ n.Octave = c.Octave : Bool)
      | none => true
    let m1 := { m with isSilence := false, currentNote := some n }
    let m2 :=
      if addToTimeline then
        let tl := m1.timeline ++ [{ Note := n, Timestamp := now }]
        { m1 with timeline :=
            if tl.length > maxTimelineEntries then tl.drop (tl.length - maxTimelineEntries)
            else tl }
      else m1
    { m2 with lastUpdate := now }
  | .updateAudioLevel rms db => { m with audioRMS := rms, audioDB := db }
  | .clearNote => { m with currentNote := none, isSilence := true, silenceSince := now }

/-- Fold a sequence of timestamped messages through `Update`. -/
def applyMsgs (m : UIModel) : List (ℚ × TeaMsg) → UIModel
  | [] => m
  | (t, msg) :: rest => applyMsgs (Update m t msg) rest

/-! ## Capture collaborator (internal/audio/portaudio.go): GetBuffer

Slice aliasing is made explicit by a store of sample arrays; the capturer
and returned buffers hold references (indices) into the store. -/

/-- A store of allocated float32 arrays. -/
abbrev Store : Type := List (List ℝ)

/-- The capture state relevant to `GetBuffer`: whether capture is running
and the reference to the internal buffer's sample array. -/
structure CapturerRef where
  isCapturing : Bool
  bufSamplesRef : ℕ
  bufSampleRate : ℕ

/-- A returned audio buffer holding a reference to its sample array. -/
structure AudioBufferRef where
  samplesRef : ℕ
  sampleRate : ℕ

/-- Allocate a new array in the store (`make([]float32, n)` followed by a
full `copy` yields a fresh array with the given contents). -/
def allocArray (st : Store) (a : List ℝ) : Store × ℕ :=
  (st ++ [a], List.length st)

/-- Overwrite the array at reference `r` (a mutation of that slice's
backing array). -/
def writeArray (st : Store) (r : ℕ) (a : List ℝ) : Store :=
  List.set st r a

/-- Read the array at reference `r`. -/
def readArray (st : Store) (r : ℕ) : List ℝ :=
  List.getD st r []

/-- portaudio.go `GetBuffer` (lines 136-152): error when not capturing;
otherwise allocate a fresh copy of the internal buffer's samples and return
a buffer referencing the copy, leaving the capturer untouched. -/
def GetBuffer (st : Store) (c : CapturerRef) :
    Except String (Store × CapturerRef × AudioBufferRef) :=
  if c.isCapturing = false then .error "audio capture not started"
  else
    let copyAlloc := allocArray st (readArray st c.bufSamplesRef)
    .ok (copyAlloc.1, c, { samplesRef := copyAlloc.2, sampleRate := c.bufSampleRate })

/-- A concrete 8-point spectrum (real entries 0,1,2,1,0,0,0,0) used to
exercise the peak scan on a spectrum with a single clear peak at bin 2. -/
noncomputable def witnessSpectrum : List ℂ :=
  [((0 : ℝ) : ℂ), ((1 : ℝ) : ℂ), ((2 : ℝ) : ℂ), ((1 : ℝ) : ℂ),
    ((0 : ℝ) : ℂ), ((0 : ℝ) : ℂ), ((0 : ℝ) : ℂ), ((0 : ℝ) : ℂ)]

/-! ## Helper lemmas -/

/-- Rounding half away from zero moves a real by at most one half. -/
lemma goRound_bounds (x : ℝ) : (goRound x : ℝ) - 1 / 2 ≤ x ∧ x ≤ (goRound x : ℝ) + 1 / 2 := by
  unfold goRound
  split
  · have h1 := Int.floor_le (x + 1 / 2)
    have h2 := Int.lt_floor_add_one (x + 1 / 2)
    constructor <;> [push_cast; push_cast] <;> linarith
  · have h1 := Int.le_ceil (x - 1 / 2)
    have h2 := Int.ceil_lt_add_one (x - 1 / 2)
    constructor <;> [push_cast; push_cast] <;> linarith

/-- Negation anti-commutes with truncated remainder. -/
lemma neg_tmod_eq (a b : ℤ) : Int.tmod (-a) b = -Int.tmod a b := by
  rw [Int.tmod_def, Int.tmod_def, Int.neg_tdiv]
  ring

/-- The Go idiom `math.Mod(a, 12)` followed by a conditional `+ 12` equals
the double-mod form `((a mod 12) + 12) mod 12` with Euclidean mod. -/
lemma tmod_fixup_eq (a : ℤ) :
    (if Int.tmod a 12 < 0 then Int.tmod a 12 + 12 else Int.tmod a 12) = (a % 12 + 12) % 12 := by
  rcases le_or_lt 0 a with h | h
  · rw [Int.tmod_eq_emod h (by norm_num)]
    split <;> omega
  · have h2 : Int.tmod a 12 = -(Int.tmod (-a) 12) := by rw [neg_tmod_eq, neg_neg]
    rw [h2, Int.tmod_eq_emod (by omega) (by norm_num)]
    split <;> omega

/-- Lower-bound a base-2 logarithm by a rational exponent via integer powers. -/
lemma lt_logb_two_of_pow_lt {x : ℝ} (hx : 0 < x) {p q : ℕ} (hq : 0 < q)
    (h : (2 : ℝ) ^ p < x ^ q) : (p : ℝ) / (q : ℝ) < Real.logb 2 x := by
  have hlog2 : 0 < Real.log 2 := Real.log_pos (by norm_num)
  have hq2 : (0 : ℝ) < (q : ℝ) := by exact_mod_cast hq
  have hlt : Real.log ((2 : ℝ) ^ p) < Real.log (x ^ q) := Real.log_lt_log (by positivity) h
  rw [Real.log_pow, Real.log_pow] at hlt
  rw [Real.logb, div_lt_div_iff hq2 hlog2]
  have hc : Real.log x * (q : ℝ) = (q : ℝ) * Real.log x := mul_comm _ _
  linarith

/-- Upper-bound a base-2 logarithm by a rational exponent via integer powers. -/
lemma logb_two_lt_of_pow_lt {x : ℝ} (hx : 0 < x) {p q : ℕ} (hq : 0 < q)
    (h : x ^ q < (2 : ℝ) ^ p) : Real.logb 2 x < (p : ℝ) / (q : ℝ) := by
  have hlog2 : 0 < Real.log 2 := Real.log_pos (by norm_num)
  have hq2 : (0 : ℝ) < (q : ℝ) := by exact_mod_cast hq
  have hlt : Real.log (x ^ q) < Real.log ((2 : ℝ) ^ p) := Real.log_lt_log (by positivity) h
  rw [Real.log_pow, Real.log_pow] at hlt
  rw [Real.logb, div_lt_div_iff hlog2 hq2]
  have hc : Real.log x * (q : ℝ) = (q : ℝ) * Real.log x := mul_comm _ _
  linarith

/-- Evaluation of `frequencyToNote` once the rounded semitone count is known. -/
lemma frequencyToNote_eq (f : ℝ) (k : ℤ)
    (hk : goRound (12 * Real.logb 2 (f / 440)) = k) :
    frequencyToNote f =
      { Name := noteNames.getD
          (if Int.tmod (k + 9) 12 < 0 then Int.tmod (k + 9) 12 + 12
           else Int.tmod (k + 9) 12).toNat ""
        Octave := 4 + ⌊((k : ℝ) + 9) / 12⌋
        Frequency := f
        Cents := 100 * (12 * Real.logb 2 (f / 440) - (k : ℝ)) } := by
  simp only [frequencyToNote, hk]

/-- The rounded semitone count of 440 Hz is 0. -/
lemma goRound_440 : goRound (12 * Real.logb 2 ((440 : ℝ) / 440)) = 0 := by
  rw [show ((440 : ℝ) / 440) = 1 by norm_num, Real.logb_one, mul_zero]
  unfold goRound
  rw [if_pos le_rfl]
  rw [Int.floor_eq_iff] <;> norm_num

/-- The semitone count of 220 Hz is exactly -12. -/
lemma semitones_220 : 12 * Real.logb 2 ((220 : ℝ) / 440) = -12 := by
  rw [show ((220 : ℝ) / 440) = (2 : ℝ)⁻¹ by norm_num, Real.logb_inv,
    Real.logb_self_eq_one (by norm_num)]
  ring

/-- The rounded semitone count of 220 Hz is -12. -/
lemma goRound_220 : goRound (12 * Real.logb 2 ((220 : ℝ) / 440)) = -12 := by
  rw [semitones_220]
  unfold goRound
  rw [if_neg (by norm_num)]
  rw [Int.ceil_eq_iff] <;> norm_num

/-- Bounds on the semitone count of 466.16 Hz: it lies in (0.99, 1.01). -/
lemma semitones_46616_bounds :
    0.99 < 12 * Real.logb 2 ((466.16 : ℝ) / 440) ∧
      12 * Real.logb 2 ((466.16 : ℝ) / 440) < 1.01 := by
  have hr : (466.16 : ℝ) / 440 = 5827 / 5500 := by norm_num
  have hp1 : (2 : ℝ) ^ (99 : ℕ) < ((5827 : ℝ) / 5500) ^ (1200 : ℕ) := by
    rw [div_pow, lt_div_iff (by positivity)]
    have hnat : (2 : ℕ) ^ 99 * 5500 ^ 1200 < 5827 ^ 1200 := by norm_num
    exact_mod_cast hnat
  have hp2 : ((5827 : ℝ) / 5500) ^ (1200 : ℕ) < (2 : ℝ) ^ (101 : ℕ) := by
    rw [div_pow, div_lt_iff (by positivity)]
    have hnat : (5827 : ℕ) ^ 1200 < 2 ^ 101 * 5500 ^ 1200 := by norm_num
    exact_mod_cast hnat
  have hl1 := lt_logb_two_of_pow_lt (x := (5827 : ℝ) / 5500) (by norm_num)
    (p := 99) (q := 1200) (by norm_num) hp1
  have hl2 := logb_two_lt_of_pow_lt (x := (5827 : ℝ) / 5500) (by norm_num)
    (p := 99 + 2) (q := 1200) (by norm_num) (by push_cast; exact hp2)
  push_cast at hl1 hl2
  rw [hr]
  constructor <;> linarith

/-- The rounded semitone count of 466.16 Hz is 1. -/
lemma goRound_46616 : goRound (12 * Real.logb 2 ((466.16 : ℝ) / 440)) = 1 := by
  obtain ⟨h1, h2⟩ := semitones_46616_bounds
  unfold goRound
  rw [if_pos (by linarith)]
  rw [Int.floor_eq_iff] <;> push_cast <;> constructor <;> linarith

/-! ## Claim theorems -/

/-- C1: for every frequency f > 0 the Note Mapper computes
semitones = 12 * log2(f / 440), roundedSemitones = round(semitones),
cents = 100 * (semitones - roundedSemitones), the note name by indexing the
chromatic table at ((roundedSemitones + 9) mod 12 + 12) mod 12, and
octave = 4 + floor((roundedSemitones + 9) / 12); in particular 440 Hz maps
to A4 with cents 0, 466.16 Hz to A#4 with cents close to 0, and 220 Hz
to A3. -/
theorem c1_note_mapper_spec (f : ℝ) (hf : 0 < f) :
    ((frequencyToNote f).Name =
        noteNames.getD
          (((goRound (12 * Real.logb 2 (f / 440)) + 9) % 12 + 12) % 12).toNat "" ∧
      (frequencyToNote f).Octave =
        4 + ⌊((goRound (12 * Real.logb 2 (f / 440)) : ℝ) + 9) / 12⌋ ∧
      (frequencyToNote f).Cents =
        100 * (12 * Real.logb 2 (f / 440) - (goRound (12 * Real.logb 2 (f / 440)) : ℝ)) ∧
      (frequencyToNote f).Frequency = f) ∧
    ((frequencyToNote 440).Name = "A" ∧ (frequencyToNote 440).Octave = 4 ∧
      (frequencyToNote 440).Cents = 0) ∧
    ((frequencyToNote 466.16).Name = "A#" ∧ (frequencyToNote 466.16).Octave = 4 ∧
      |(frequencyToNote 466.16).Cents| < 1) ∧
    ((frequencyToNote 220).Name = "A" ∧ (frequencyToNote 220).Octave = 3 ∧
      (frequencyToNote 220).Cents = 0) := by
  have e440 := frequencyToNote_eq 440 0 goRound_440
  have e466 := frequencyToNote_eq 466.16 1 goRound_46616
  have e220 := frequencyToNote_eq 220 (-12) goRound_220
  refine ⟨⟨?_, ?_, ?_, ?_⟩, ⟨?_, ?_, ?_⟩, ⟨?_, ?_, ?_⟩, ⟨?_, ?_, ?_⟩⟩
  · rw [frequencyToNote_eq f (goRound (12 * Real.logb 2 (f / 440))) rfl]
    simp only [tmod_fixup_eq]
  · rw [frequencyToNote_eq f (goRound (12 * Real.logb 2 (f / 440))) rfl]
  · rw [frequencyToNote_eq f (goRound (12 * Real.logb 2 (f / 440))) rfl]
  · rw [frequencyToNote_eq f (goRound (12 * Real.logb 2 (f / 440))) rfl]
  · rw [e440]
    rfl
  · rw [e440]
    have hfl : ⌊(((0 : ℤ) : ℝ) + 9) / 12⌋ = 0 := by
      rw [Int.floor_eq_iff] <;> norm_num
    show (4 : ℤ) + ⌊(((0 : ℤ) : ℝ) + 9) / 12⌋ = 4
    rw [hfl]
    norm_num
  · rw [e440, show ((440 : ℝ) / 440) = 1 by norm_num, Real.logb_one]
    norm_num
  · rw [e466]
    rfl
  · rw [e466]
    have hfl : ⌊(((1 : ℤ) : ℝ) + 9) / 12⌋ = 0 := by
      rw [Int.floor_eq_iff] <;> norm_num
    show (4 : ℤ) + ⌊(((1 : ℤ) : ℝ) + 9) / 12⌋ = 4
    rw [hfl]
    norm_num
  · rw [e466]
    obtain ⟨h1, h2⟩ := semitones_46616_bounds
    have habs : |(100 : ℝ) * (12 * Real.logb 2 (466.16 / 440) - ((1 : ℤ) : ℝ))| < 1 := by
      rw [abs_lt]
      push_cast
      constructor <;> linarith
    exact habs
  · rw [e220]
    rfl
  · rw [e220]
    have hfl : ⌊((((-12) : ℤ) : ℝ) + 9) / 12⌋ = -1 := by
      rw [Int.floor_eq_iff] <;> norm_num
    show (4 : ℤ) + ⌊((((-12) : ℤ) : ℝ) + 9) / 12⌋ = 3
    rw [hfl]
    norm_num
  · rw [e220, semitones_220]
    norm_num

/-- Witness for C1 at the concrete frequency 440 Hz. -/
theorem c1_note_mapper_spec_witness :
    (0 : ℝ) < 440 ∧ (frequencyToNote 440).Name = "A" :=
  ⟨by norm_num, (c1_note_mapper_spec 440 (by norm_num)).2.1.1⟩

/-- C7: for every frequency f > 0 the cents deviation of the produced Note
lies in the range [-50, +50]. -/
theorem c7_cents_range (f : ℝ) (hf : 0 < f) :
    -50 ≤ (frequencyToNote f).Cents ∧ (frequencyToNote f).Cents ≤ 50 := by
  obtain ⟨h1, h2⟩ := goRound_bounds (12 * Real.logb 2 (f / 440))
  rw [frequencyToNote_eq f (goRound (12 * Real.logb 2 (f / 440))) rfl]
  constructor <;> simp only <;> linarith

/-- Witness for C7 at the concrete frequency 440 Hz. -/
theorem c7_cents_range_witness :
    (0 : ℝ) < 440 ∧ -50 ≤ (frequencyToNote 440).Cents ∧ (frequencyToNote 440).Cents ≤ 50 :=
  ⟨by norm_num, c7_cents_range 440 (by norm_num)⟩

/-- A list whose members are all zero has zero sum of squares. -/
lemma sumSquares_of_silence {samples : List ℝ} (h : ∀ s ∈ samples, s = 0) :
    sumSquares samples = 0 := by
  unfold sumSquares
  apply List.sum_eq_zero
  intro x hx
  rcases List.mem_map.mp hx with ⟨s, hs, rfl⟩
  rw [h s hs]
  ring

/-- C2: for every non-empty frame, the signal gate of DetectPitch rejects
exactly when RMS is below the configured volumeThreshold, or the dB level
20*log10(RMS) is below -50 dB, or the peak is below twice the
volumeThreshold; rejection yields the volume-threshold error (no note), and
uniform silence is always rejected. -/
theorem c2_signal_gate (n sr : ℕ) (samples : List ℝ) (h : samples ≠ []) :
    (gateRejects (NewFFTDetector n) samples ↔
      (rmsVolume samples < 0.005 ∨
        20 * Real.logb 10 (rmsVolume samples) < -50 ∨
        peakValue samples < 2 * 0.005)) ∧
    (gateRejects (NewFFTDetector n) samples →
      DetectPitch (NewFFTDetector n) ⟨samples, sr⟩ = .error .volumeThreshold) ∧
    ((∀ s ∈ samples, s = 0) → gateRejects (NewFFTDetector n) samples) := by
  have hrnn : 0 ≤ rmsVolume samples := Real.sqrt_nonneg _
  refine ⟨?_, ?_, ?_⟩
  · unfold gateRejects NewFFTDetector
    by_cases hr : rmsVolume samples > 0.0000001
    · rw [dbLevelOf, if_pos hr, show (0.005 * 2 : ℝ) = 2 * 0.005 by norm_num]
    · constructor
      · intro _
        left
        linarith [not_lt.mp hr]
      · intro _
        left
        linarith [not_lt.mp hr]
  · intro hg
    unfold DetectPitch
    rw [if_neg h]
    rcases hg with hA | hB | hC
    · rw [if_pos (Or.inl hA)]
    · rw [if_pos (Or.inr hB)]
    · by_cases hAB : rmsVolume samples < (NewFFTDetector n).volumeThreshold ∨
          dbLevelOf (rmsVolume samples) < -50
      · rw [if_pos hAB]
      · rw [if_neg hAB, if_pos hC]
  · intro hz
    left
    unfold rmsVolume
    rw [sumSquares_of_silence hz, zero_div, Real.sqrt_zero]
    unfold NewFFTDetector
    norm_num

/-- Witness for C2 on the concrete uniformly silent four-sample frame. -/
theorem c2_signal_gate_witness :
    List.replicate 4 (0 : ℝ) ≠ [] ∧ gateRejects (NewFFTDetector 4096) (List.replicate 4 0) := by
  have h : List.replicate 4 (0 : ℝ) ≠ [] := by simp
  exact ⟨h, (c2_signal_gate 4096 44100 (List.replicate 4 0) h).2.2
    fun s hs => List.eq_of_mem_replicate hs⟩

/-- C8: the detection pipeline is deterministic: equal buffers produce equal
DetectPitch results and, with the state machine in equal (e.g. reset)
states, equal frames produce equal loop steps. -/
theorem c8_deterministic (d : FFTDetector) (b b2 : AudioBuffer) (hb : b = b2)
    (s s2 : LoopState) (f f2 : FrameInput) (hs : s = s2) (hf : f = f2) :
    DetectPitch d b = DetectPitch d b2 ∧ loopStep s f = loopStep s2 f2 := by
  subst hb hs hf
  exact ⟨rfl, rfl⟩

/-- Witness for C8 on a concrete buffer, state and frame. -/
theorem c8_deterministic_witness :
    DetectPitch (NewFFTDetector 4096) ⟨[0], 44100⟩ = DetectPitch (NewFFTDetector 4096) ⟨[0], 44100⟩ ∧
      loopStep (initLoopState 0) ⟨0, 4096, 0, -100, none⟩ =
        loopStep (initLoopState 0) ⟨0, 4096, 0, -100, none⟩ :=
  c8_deterministic (NewFFTDetector 4096) ⟨[0], 44100⟩ ⟨[0], 44100⟩ rfl
    (initLoopState 0) (initLoopState 0) ⟨0, 4096, 0, -100, none⟩ ⟨0, 4096, 0, -100, none⟩ rfl rfl

/-- C10: GetBuffer returns a buffer whose samples are a fresh copy of the
capturer's internal array: the capturer and its array are unchanged, the
copy has equal contents at a distinct reference, and overwriting the
returned array leaves the internal array intact. -/
theorem c10_getbuffer_fresh_copy (st : Store) (c : CapturerRef)
    (hc : c.isCapturing = true) (hr : c.bufSamplesRef < List.length st) :
    GetBuffer st c =
      .ok (st ++ [readArray st c.bufSamplesRef], c,
        { samplesRef := List.length st, sampleRate := c.bufSampleRate }) ∧
    readArray (st ++ [readArray st c.bufSamplesRef]) c.bufSamplesRef =
      readArray st c.bufSamplesRef ∧
    readArray (st ++ [readArray st c.bufSamplesRef]) (List.length st) =
      readArray st c.bufSamplesRef ∧
    List.length st ≠ c.bufSamplesRef ∧
    (∀ a : List ℝ,
      readArray
        (writeArray (st ++ [readArray st c.bufSamplesRef]) (List.length st) a)
        c.bufSamplesRef = readArray st c.bufSamplesRef) := by
  refine ⟨?_, ?_, ?_, ?_, ?_⟩
  · unfold GetBuffer
    rw [if_neg (by rw [hc]; simp)]
    rfl
  · unfold readArray
    exact List.getD_append _ _ _ _ hr
  · unfold readArray
    rw [List.getD_append_right _ _ _ _ le_rfl]
    simp
  · omega
  · intro a
    unfold readArray writeArray
    rw [List.getD_eq_getElem?_getD, List.getElem?_set_ne (by omega),
      ← List.getD_eq_getElem?_getD]
    exact List.getD_append _ _ _ _ hr

/-- Witness for C10 on a concrete store and capturer. -/
theorem c10_getbuffer_fresh_copy_witness :
    (CapturerRef.mk true 0 44100).isCapturing = true ∧
      (0 : ℕ) < List.length ([[1, 2]] : Store) ∧
      GetBuffer [[1, 2]] (CapturerRef.mk true 0 44100) =
        .ok ([[1, 2]] ++ [readArray [[1, 2]] 0], CapturerRef.mk true 0 44100,
          { samplesRef := List.length ([[1, 2]] : Store), sampleRate := 44100 }) :=
  ⟨rfl, by simp [Store],
    (c10_getbuffer_fresh_copy [[1, 2]] (CapturerRef.mk true 0 44100) rfl (by simp [Store])).1⟩

/-- Evaluation of one loop iteration while a rise is being tracked, the
buffer is large enough, the level stays at or above -30 dB and the
stabilization window has not yet elapsed: only a possible debug level event
is emitted and the rise tracking is kept. -/
lemma loopStep_rising_eval (r : LoopState) (f : FrameInput)
    (hb : ¬ f.bufLen < 512) (hrise : r.isVolumeRising = true)
    (hdb : -30 ≤ f.db) (hnow : f.now - r.volumeRiseTime < stabilizationDelay) :
    loopStep r f =
      ({ (if f.now - r.lastDebugTime > 200 then { r with lastDebugTime := f.now } else r) with
          lastDB := f.db },
        if f.now - r.lastDebugTime > 200 then [UIEvent.level f.rms f.db] else []) := by
  unfold loopStep
  rw [if_neg hb]
  by_cases hdbg : f.now - r.lastDebugTime > 200
  · simp only [if_pos hdbg]
    rw [if_neg (by simp [hrise])]
    rw [if_neg (not_lt.mpr hdb)]
    rw [if_pos ⟨by simp [hrise], by simpa using hnow⟩]
  · simp only [if_neg hdbg]
    rw [if_neg (by simp [hrise])]
    rw [if_neg (not_lt.mpr hdb)]
    rw [if_pos ⟨by simp [hrise], by simpa using hnow⟩]

/-- While a rise is being tracked, frames that stay at or above -30 dB and
lie inside the stabilization window emit no note event and keep the rise
tracking (with its original rise time). -/
lemma runLoop_no_note_of_rising (frames : List FrameInput) :
    ∀ r : LoopState, r.isVolumeRising = true →
      (∀ f ∈ frames, ¬ f.bufLen < 512 → -30 ≤ f.db ∧ f.now < r.volumeRiseTime + stabilizationDelay) →
      (∀ nt : Note, UIEvent.note nt ∉ (runLoop r frames).2) := by
  induction frames with
  | nil =>
    intro r _ _ nt
    simp [runLoop]
  | cons f rest ih =>
    intro r hrise hcond nt hmem
    rw [show (runLoop r (f :: rest)).2
        = (loopStep r f).2 ++ (runLoop (loopStep r f).1 rest).2 from rfl] at hmem
    by_cases hb : f.bufLen < 512
    · have hstep : loopStep r f = (r, []) := by
        unfold loopStep
        rw [if_pos hb]
      rw [hstep] at hmem
      simp only [List.nil_append] at hmem
      exact ih r hrise (fun g hg => hcond g (List.mem_cons_of_mem f hg)) nt hmem
    · obtain ⟨hdb, hnow⟩ := hcond f (List.mem_cons_self f rest) hb
      have heval := loopStep_rising_eval r f hb hrise hdb (by linarith)
      rw [heval] at hmem
      rcases List.mem_append.mp hmem with h1 | h2
      · revert h1
        split <;> simp
      · have hfields : ((({ (if f.now - r.lastDebugTime > 200 then
              { r with lastDebugTime := f.now } else r) with
            lastDB := f.db }, if f.now - r.lastDebugTime > 200
              then [UIEvent.level f.rms f.db] else ([] : List UIEvent)) :
            LoopState × List UIEvent)).1.isVolumeRising = true ∧
            ((({ (if f.now - r.lastDebugTime > 200 then
              { r with lastDebugTime := f.now } else r) with
            lastDB := f.db }, if f.now - r.lastDebugTime > 200
              then [UIEvent.level f.rms f.db] else ([] : List UIEvent)) :
            LoopState × List UIEvent)).1.volumeRiseTime = r.volumeRiseTime := by
          constructor <;> (dsimp only; split <;> simp [hrise])
        refine ih _ hfields.1 ?_ nt h2
        intro g hg hgb
        obtain ⟨hg1, hg2⟩ := hcond g (List.mem_cons_of_mem f hg) hgb
        refine ⟨hg1, ?_⟩
        rw [hfields.2]
        exact hg2

/-- C3 (amended): in the onset/stability state machine, when the dB level
jumps above the previous frame's level by more than the 3 dB onset
threshold while exceeding the -40 dB onset floor at a frame where no rise
is already being tracked, and the subsequent frames stay high (at or above
-30 dB), no Note event is emitted at any frame within the 300 ms
stabilization delay of that jump frame.  The restriction to a not-yet
tracked rise is forced by the code: a qualifying jump during a tracked rise
does not restart the stabilization window (see the counterexample below). -/
theorem c3_onset_suppression (s : LoopState) (f0 : FrameInput) (rest : List FrameInput)
    (hrise : s.isVolumeRising = false)
    (hbuf : ¬ f0.bufLen < 512)
    (hjump1 : f0.db > s.lastDB + 3)
    (hjump2 : f0.db > -40)
    (hhigh : ∀ f ∈ rest, -30 ≤ f.db)
    (hwin : ∀ f ∈ rest, f.now < f0.now + stabilizationDelay) :
    ∀ nt : Note, UIEvent.note nt ∉ (runLoop s (f0 :: rest)).2 := by
  intro nt hmem
  rw [show (runLoop s (f0 :: rest)).2
      = (loopStep s f0).2 ++ (runLoop (loopStep s f0).1 rest).2 from rfl] at hmem
  have hstep : loopStep s f0 =
      ({ (if f0.now - s.lastDebugTime > 200 then { s with lastDebugTime := f0.now } else s) with
          isVolumeRising := true, volumeRiseTime := f0.now, lastDB := f0.db },
        if f0.now - s.lastDebugTime > 200 then [UIEvent.level f0.rms f0.db] else []) := by
    unfold loopStep
    rw [if_neg hbuf]
    by_cases hdbg : f0.now - s.lastDebugTime > 200
    · simp only [if_pos hdbg]
      rw [if_pos ⟨by simpa using hjump1, by simpa using hjump2, by simp [hrise]⟩]
    · simp only [if_neg hdbg]
      rw [if_pos ⟨by simpa using hjump1, by simpa using hjump2, by simp [hrise]⟩]
  rw [hstep] at hmem
  rcases List.mem_append.mp hmem with h1 | h2
  · revert h1
    split <;> simp
  · have hfld : ((({ (if f0.now - s.lastDebugTime > 200 then
        { s with lastDebugTime := f0.now } else s) with
        isVolumeRising := true, volumeRiseTime := f0.now, lastDB := f0.db },
        if f0.now - s.lastDebugTime > 200 then [UIEvent.level f0.rms f0.db]
          else ([] : List UIEvent)) : LoopState × List UIEvent)).1.isVolumeRising = true ∧
      ((({ (if f0.now - s.lastDebugTime > 200 then
        { s with lastDebugTime := f0.now } else s) with
        isVolumeRising := true, volumeRiseTime := f0.now, lastDB := f0.db },
        if f0.now - s.lastDebugTime > 200 then [UIEvent.level f0.rms f0.db]
          else ([] : List UIEvent)) : LoopState × List UIEvent)).1.volumeRiseTime = f0.now := by
      constructor <;> rfl
    refine runLoop_no_note_of_rising rest _ hfld.1 ?_ nt h2
    intro g hg _
    refine ⟨hhigh g hg, ?_⟩
    rw [hfld.2]
    exact hwin g hg

/-- C3 counterexample to the claim as frozen: starting from the initial
state, the frame at t = 1250 ms is a qualifying jump (its -16 dB exceeds
the previous frame's -20 dB by more than 3 dB and exceeds -40 dB) and the
sequence stays high afterwards, yet a Note event is emitted at the frame at
t = 1400 ms, only 150 ms after that jump -- inside the 300 ms stabilization
delay.  (The jump occurs while the rise begun at t = 1000 ms is still
tracked, and the code does not restart the delay then.) -/
theorem c3_onset_suppression_counterexample :
    ((⟨1250, 4096, 1/10, -16, some ⟨"A", 4, 440, 0⟩⟩ : FrameInput).db >
        (⟨1000, 4096, 1/10, -20, some ⟨"A", 4, 440, 0⟩⟩ : FrameInput).db + 3 ∧
      (⟨1250, 4096, 1/10, -16, some ⟨"A", 4, 440, 0⟩⟩ : FrameInput).db > -40) ∧
    (∀ f ∈ [(⟨1400, 4096, 1/10, -15, some ⟨"A", 4, 440, 0⟩⟩ : FrameInput)],
      -30 ≤ f.db ∧ f.now < (⟨1250, 4096, 1/10, -16, some ⟨"A", 4, 440, 0⟩⟩ : FrameInput).now +
        stabilizationDelay) ∧
    UIEvent.note ⟨"A", 4, 440, 0⟩ ∈
      (runLoop (initLoopState 0)
        [⟨1000, 4096, 1/10, -20, some ⟨"A", 4, 440, 0⟩⟩,
          ⟨1250, 4096, 1/10, -16, some ⟨"A", 4, 440, 0⟩⟩,
          ⟨1400, 4096, 1/10, -15, some ⟨"A", 4, 440, 0⟩⟩]).2 := by
  refine ⟨⟨by norm_num, by norm_num⟩, ?_, ?_⟩
  · intro f hf
    simp only [List.mem_singleton] at hf
    subst hf
    exact ⟨by norm_num, by norm_num [stabilizationDelay]⟩
  · have hev : (runLoop (initLoopState 0)
        [⟨1000, 4096, 1/10, -20, some ⟨"A", 4, 440, 0⟩⟩,
          ⟨1250, 4096, 1/10, -16, some ⟨"A", 4, 440, 0⟩⟩,
          ⟨1400, 4096, 1/10, -15, some ⟨"A", 4, 440, 0⟩⟩]).2
        = [UIEvent.level (1/10) (-20), UIEvent.level (1/10) (-16),
            UIEvent.note ⟨"A", 4, 440, 0⟩] := by
      norm_num [runLoop, loopStep, initLoopState, stabilizationDelay]
    rw [hev]
    simp

/-- Witness for C3 on a concrete jump frame followed by two in-window
frames. -/
theorem c3_onset_suppression_witness :
    (initLoopState 0).isVolumeRising = false ∧
      ¬ (⟨0, 4096, 1/10, -20, some ⟨"A", 4, 440, 0⟩⟩ : FrameInput).bufLen < 512 ∧
      (⟨0, 4096, 1/10, -20, some ⟨"A", 4, 440, 0⟩⟩ : FrameInput).db >
        (initLoopState 0).lastDB + 3 ∧
      (∀ nt : Note, UIEvent.note nt ∉
        (runLoop (initLoopState 0)
          [⟨0, 4096, 1/10, -20, some ⟨"A", 4, 440, 0⟩⟩,
            ⟨100, 4096, 1/10, -20, some ⟨"A", 4, 440, 0⟩⟩,
            ⟨250, 4096, 3/10, -10, some ⟨"A", 4, 440, 0⟩⟩]).2) := by
  refine ⟨rfl, by norm_num, by norm_num [initLoopState], ?_⟩
  exact c3_onset_suppression (initLoopState 0) ⟨0, 4096, 1/10, -20, some ⟨"A", 4, 440, 0⟩⟩
    [⟨100, 4096, 1/10, -20, some ⟨"A", 4, 440, 0⟩⟩, ⟨250, 4096, 3/10, -10, some ⟨"A", 4, 440, 0⟩⟩]
    rfl (by norm_num) (by norm_num [initLoopState]) (by norm_num)
    (by
      intro f hf
      simp only [List.mem_cons, List.mem_singleton, List.not_mem_nil, or_false] at hf
      rcases hf with rfl | rfl <;> norm_num)
    (by
      intro f hf
      simp only [List.mem_cons, List.mem_singleton, List.not_mem_nil, or_false] at hf
      rcases hf with rfl | rfl <;> norm_num [stabilizationDelay])

/-- One Update step preserves the timeline bound. -/
lemma update_timeline_le (m : UIModel) (now : ℚ) (msg : TeaMsg)
    (h : m.timeline.length ≤ maxTimelineEntries) :
    (Update m now msg).timeline.length ≤ maxTimelineEntries := by
  cases msg with
  | key s =>
    unfold Update
    dsimp only
    split <;> exact h
  | windowSize w hh => exact h
  | tick t => exact h
  | updateNote nn =>
    unfold Update
    dsimp only
    split
    · dsimp only
      split
      · rw [List.length_drop]
        omega
      · rename_i htl
        simp only [List.length_append, List.length_cons, List.length_nil] at htl ⊢
        omega
    · exact h
  | updateAudioLevel a b2 => exact h
  | clearNote => exact h

/-- The timeline bound is preserved by any message sequence. -/
lemma applyMsgs_timeline_le (msgs : List (ℚ × TeaMsg)) :
    ∀ m : UIModel, m.timeline.length ≤ maxTimelineEntries →
      (applyMsgs m msgs).timeline.length ≤ maxTimelineEntries := by
  induction msgs with
  | nil => intro m h; exact h
  | cons p rest ih =>
    intro m h
    exact ih (Update m p.1 p.2) (update_timeline_le m p.1 p.2 h)

/-- C9: starting from the initial model, every sequence of Update calls
leaves at most maxTimelineEntries (50) entries in the timeline. -/
theorem c9_timeline_bound (t0 : ℚ) (msgs : List (ℚ × TeaMsg)) :
    (applyMsgs (NewModel t0) msgs).timeline.length ≤ maxTimelineEntries :=
  applyMsgs_timeline_le msgs (NewModel t0) (by simp [NewModel])

/-- Membership in the candidate-peak scan: a peak is recorded exactly for
the interior bins whose magnitude exceeds both neighbours and the relative
threshold, with the interpolated (or, for a zero denominator, raw)
frequency. -/
lemma mem_peaksOf_iff (sh : List ℂ) (a b : ℕ) (M bz pt : ℝ) (p : Peak) :
    p ∈ peaksOf sh a b M bz pt ↔
      ∃ i : ℕ, a < i ∧ i < b ∧
        magAt sh i > magAt sh (i - 1) ∧ magAt sh i > magAt sh (i + 1) ∧
        magAt sh i > M * pt ∧
        p = { Bin := i
              Magnitude := magAt sh i
              Frequency :=
                if magAt sh (i - 1) - 2 * magAt sh i + magAt sh (i + 1) ≠ 0 then
                  ((i : ℝ) + 0.5 * (magAt sh (i - 1) - magAt sh (i + 1)) /
                    (magAt sh (i - 1) - 2 * magAt sh i + magAt sh (i + 1))) * bz
                else (i : ℝ) * bz } := by
  unfold peaksOf
  rw [List.mem_filterMap]
  constructor
  · rintro ⟨jj, hjj, hF⟩
    rw [List.mem_range] at hjj
    dsimp only at hF
    by_cases hc : magAt sh (a + 1 + jj) > magAt sh (a + 1 + jj - 1) ∧
        magAt sh (a + 1 + jj) > magAt sh (a + 1 + jj + 1) ∧
        magAt sh (a + 1 + jj) > M * pt
    · rw [if_pos hc] at hF
      refine ⟨a + 1 + jj, by omega, by omega, hc.1, hc.2.1, hc.2.2, ?_⟩
      exact ((Option.some.injEq _ _).mp hF).symm
    · rw [if_neg hc] at hF
      exact absurd hF (by simp)
  · rintro ⟨i, hai, hib, hc1, hc2, hc3, rfl⟩
    refine ⟨i - (a + 1), ?_, ?_⟩
    · rw [List.mem_range]
      omega
    · dsimp only
      have hi : a + 1 + (i - (a + 1)) = i := by omega
      rw [hi, if_pos ⟨hc1, hc2, hc3⟩]

/-- C5: for every interior bin i strictly between minBin and maxBin, the
Peak Extractor records bin i as a candidate exactly when its magnitude
exceeds both neighbouring bins and maxMagnitude * peakThreshold, and the
candidate frequency is the parabolic interpolation
(i + 0.5*(prev - next)/(prev - 2*cur + next)) * sampleRate/N, falling back
to i * sampleRate/N when the denominator is exactly zero. -/
theorem c5_peak_candidates (d : FFTDetector) (spectrum : List ℂ) (sr : ℕ) (i : ℕ)
    (h1 : minBinOf d sr spectrum.length < i) (h2 : i < maxBinOf d sr spectrum.length) :
    ((∃ p ∈ pipelinePeaks d spectrum sr, p.Bin = i) ↔
      (magAt (spectrumHalfOf spectrum) i > magAt (spectrumHalfOf spectrum) (i - 1) ∧
        magAt (spectrumHalfOf spectrum) i > magAt (spectrumHalfOf spectrum) (i + 1) ∧
        magAt (spectrumHalfOf spectrum) i >
          maxMagnitudeOf (spectrumHalfOf spectrum) (minBinOf d sr spectrum.length)
            (maxBinOf d sr spectrum.length) * d.peakThreshold)) ∧
    ∀ p ∈ pipelinePeaks d spectrum sr, p.Bin = i →
      p.Frequency =
        (if magAt (spectrumHalfOf spectrum) (i - 1) - 2 * magAt (spectrumHalfOf spectrum) i +
            magAt (spectrumHalfOf spectrum) (i + 1) ≠ 0 then
          ((i : ℝ) + 0.5 * (magAt (spectrumHalfOf spectrum) (i - 1) -
              magAt (spectrumHalfOf spectrum) (i + 1)) /
            (magAt (spectrumHalfOf spectrum) (i - 1) - 2 * magAt (spectrumHalfOf spectrum) i +
              magAt (spectrumHalfOf spectrum) (i + 1))) * binSizeHzOf sr spectrum.length
        else (i : ℝ) * binSizeHzOf sr spectrum.length) := by
  constructor
  · constructor
    · rintro ⟨p, hp, hbin⟩
      unfold pipelinePeaks at hp
      rw [mem_peaksOf_iff] at hp
      obtain ⟨j, _, _, hc1, hc2, hc3, rfl⟩ := hp
      obtain rfl : j = i := hbin
      exact ⟨hc1, hc2, hc3⟩
    · rintro ⟨hc1, hc2, hc3⟩
      refine ⟨{ Bin := i
                Magnitude := magAt (spectrumHalfOf spectrum) i
                Frequency :=
                  if magAt (spectrumHalfOf spectrum) (i - 1) -
                      2 * magAt (spectrumHalfOf spectrum) i +
                      magAt (spectrumHalfOf spectrum) (i + 1) ≠ 0 then
                    ((i : ℝ) + 0.5 * (magAt (spectrumHalfOf spectrum) (i - 1) -
                        magAt (spectrumHalfOf spectrum) (i + 1)) /
                      (magAt (spectrumHalfOf spectrum) (i - 1) -
                        2 * magAt (spectrumHalfOf spectrum) i +
                        magAt (spectrumHalfOf spectrum) (i + 1))) *
                      binSizeHzOf sr spectrum.length
                  else (i : ℝ) * binSizeHzOf sr spectrum.length }, ?_, rfl⟩
      unfold pipelinePeaks
      rw [mem_peaksOf_iff]
      exact ⟨i, h1, h2, hc1, hc2, hc3, rfl⟩
  · intro p hp hbin
    unfold pipelinePeaks at hp
    rw [mem_peaksOf_iff] at hp
    obtain ⟨j, _, _, _, _, _, rfl⟩ := hp
    obtain rfl : j = i := hbin
    rfl

/-- C6: when the in-band maximum magnitude is below the noise floor, or the
scan finds no candidate peak, the Peak Extractor returns the default
frequency 440.0 Hz, and the caller's range check accepts 440 Hz as a valid
outcome, producing a note rather than an error. -/
theorem c6_default_frequency (n sr : ℕ) (spectrum : List ℂ)
    (h : maxMagnitudeOf (spectrumHalfOf spectrum)
          (minBinOf (NewFFTDetector n) sr spectrum.length)
          (maxBinOf (NewFFTDetector n) sr spectrum.length) < (NewFFTDetector n).noiseFloor ∨
        pipelinePeaks (NewFFTDetector n) spectrum sr = []) :
    findFundamentalFrequency (NewFFTDetector n) spectrum sr = 440 ∧
      classifyFrequency (NewFFTDetector n) 440 = .ok (frequencyToNote 440) := by
  constructor
  · unfold findFundamentalFrequency
    rcases h with h1 | h2
    · rw [if_pos h1]
      norm_num
    · by_cases hm : maxMagnitudeOf (spectrumHalfOf spectrum)
          (minBinOf (NewFFTDetector n) sr spectrum.length)
          (maxBinOf (NewFFTDetector n) sr spectrum.length) < (NewFFTDetector n).noiseFloor
      · rw [if_pos hm]
        norm_num
      · rw [if_neg hm, h2]
        show (440.0 : ℝ) = 440
        norm_num
  · unfold classifyFrequency
    rw [if_neg (by norm_num [NewFFTDetector])]

/-- Zero accumulator folded with max over an all-zero list stays zero. -/
lemma foldl_max_zero : ∀ l : List ℝ, (∀ x ∈ l, x = 0) → l.foldl max 0 = 0
  | [], _ => rfl
  | x :: xs, h => by
    have hx : x = 0 := h x (List.mem_cons_self x xs)
    rw [List.foldl_cons, hx, max_self]
    exact foldl_max_zero xs fun y hy => h y (List.mem_cons_of_mem _ hy)

/-- A half spectrum whose magnitudes all vanish has in-band maximum 0. -/
lemma maxMagnitudeOf_silent (sh : List ℂ) (a b : ℕ) (h : ∀ i, magAt sh i = 0) :
    maxMagnitudeOf sh a b = 0 := by
  unfold maxMagnitudeOf
  apply foldl_max_zero
  intro x hx
  rcases List.mem_map.mp hx with ⟨j, _, rfl⟩
  exact h _

/-- All magnitudes of an all-zero spectrum are zero. -/
lemma magAt_replicate_zero (m i : ℕ) : magAt (List.replicate m (0 : ℂ)) i = 0 := by
  unfold magAt
  have hz : (List.replicate m (0 : ℂ)).getD i 0 = 0 := by
    rw [List.getD_eq_getElem?_getD, List.getElem?_replicate]
    split <;> rfl
  rw [hz]
  simp

/-- Witness for C6 on the all-zero length-8 spectrum. -/
theorem c6_default_frequency_witness :
    (maxMagnitudeOf (spectrumHalfOf (List.replicate 8 (0 : ℂ)))
        (minBinOf (NewFFTDetector 8) 800 (List.replicate 8 (0 : ℂ)).length)
        (maxBinOf (NewFFTDetector 8) 800 (List.replicate 8 (0 : ℂ)).length) <
          (NewFFTDetector 8).noiseFloor ∨
      pipelinePeaks (NewFFTDetector 8) (List.replicate 8 (0 : ℂ)) 800 = []) ∧
      findFundamentalFrequency (NewFFTDetector 8) (List.replicate 8 (0 : ℂ)) 800 = 440 := by
  have hsh : spectrumHalfOf (List.replicate 8 (0 : ℂ)) = List.replicate 4 (0 : ℂ) := by
    unfold spectrumHalfOf
    simp [List.take_replicate]
  have hmag : ∀ i, magAt (spectrumHalfOf (List.replicate 8 (0 : ℂ))) i = 0 := by
    intro i
    rw [hsh, magAt_replicate_zero]
  have h : maxMagnitudeOf (spectrumHalfOf (List.replicate 8 (0 : ℂ)))
        (minBinOf (NewFFTDetector 8) 800 (List.replicate 8 (0 : ℂ)).length)
        (maxBinOf (NewFFTDetector 8) 800 (List.replicate 8 (0 : ℂ)).length) <
          (NewFFTDetector 8).noiseFloor := by
    rw [maxMagnitudeOf_silent _ _ _ hmag]
    norm_num [NewFFTDetector]
  exact ⟨Or.inl h, (c6_default_frequency 8 800 (List.replicate 8 (0 : ℂ)) (Or.inl h)).1⟩

/-- Witness for C5 at interior bin 2 of the concrete spectrum, which is a
candidate peak there. -/
theorem c5_peak_candidates_witness :
    minBinOf (NewFFTDetector 8) 800 witnessSpectrum.length < 2 ∧
      2 < maxBinOf (NewFFTDetector 8) 800 witnessSpectrum.length ∧
      (∃ p ∈ pipelinePeaks (NewFFTDetector 8) witnessSpectrum 800, p.Bin = 2) := by
  have hlen : witnessSpectrum.length = 8 := rfl
  have hminb : minBinOf (NewFFTDetector 8) 800 witnessSpectrum.length = 1 := by
    rw [hlen]
    unfold minBinOf NewFFTDetector binSizeHzOf
    norm_num
  have hmaxb : maxBinOf (NewFFTDetector 8) 800 witnessSpectrum.length = 3 := by
    rw [hlen]
    unfold maxBinOf NewFFTDetector binSizeHzOf
    norm_num
  have hsh : spectrumHalfOf witnessSpectrum =
      [((0 : ℝ) : ℂ), ((1 : ℝ) : ℂ), ((2 : ℝ) : ℂ), ((1 : ℝ) : ℂ)] := rfl
  have hm1 : magAt (spectrumHalfOf witnessSpectrum) 1 = 1 := by
    rw [hsh]
    unfold magAt
    rw [show ([((0 : ℝ) : ℂ), ((1 : ℝ) : ℂ), ((2 : ℝ) : ℂ), ((1 : ℝ) : ℂ)] : List ℂ).getD 1 0
        = ((1 : ℝ) : ℂ) from rfl]
    rw [Complex.abs_ofReal]
    norm_num
  have hm2 : magAt (spectrumHalfOf witnessSpectrum) 2 = 2 := by
    rw [hsh]
    unfold magAt
    rw [show ([((0 : ℝ) : ℂ), ((1 : ℝ) : ℂ), ((2 : ℝ) : ℂ), ((1 : ℝ) : ℂ)] : List ℂ).getD 2 0
        = ((2 : ℝ) : ℂ) from rfl]
    rw [Complex.abs_ofReal]
    norm_num
  have hm3 : magAt (spectrumHalfOf witnessSpectrum) 3 = 1 := by
    rw [hsh]
    unfold magAt
    rw [show ([((0 : ℝ) : ℂ), ((1 : ℝ) : ℂ), ((2 : ℝ) : ℂ), ((1 : ℝ) : ℂ)] : List ℂ).getD 3 0
        = ((1 : ℝ) : ℂ) from rfl]
    rw [Complex.abs_ofReal]
    norm_num
  have hmax : maxMagnitudeOf (spectrumHalfOf witnessSpectrum) 1 3 = 2 := by
    unfold maxMagnitudeOf
    rw [show (3 + 1 - 1 : ℕ) = 3 from rfl, show List.range 3 = [0, 1, 2] from rfl]
    rw [List.map_cons, List.map_cons, List.map_cons, List.map_nil]
    rw [show (1 + 0 : ℕ) = 1 from rfl, show (1 + 1 : ℕ) = 2 from rfl,
      show (1 + 2 : ℕ) = 3 from rfl]
    rw [hm1, hm2, hm3]
    rw [List.foldl_cons, List.foldl_cons, List.foldl_cons, List.foldl_nil]
    rw [max_eq_right (by norm_num : (0 : ℝ) ≤ 1), max_eq_right (by norm_num : (1 : ℝ) ≤ 2),
      max_eq_left (by norm_num : (1 : ℝ) ≤ 2)]
  have hA : minBinOf (NewFFTDetector 8) 800 witnessSpectrum.length < 2 := by
    rw [hminb]
    norm_num
  have hB : 2 < maxBinOf (NewFFTDetector 8) 800 witnessSpectrum.length := by
    rw [hmaxb]
    norm_num
  refine ⟨hA, hB, ?_⟩
  refine (c5_peak_candidates (NewFFTDetector 8) witnessSpectrum 800 2 hA hB).1.mpr ⟨?_, ?_, ?_⟩
  · rw [show (2 - 1 : ℕ) = 1 from rfl, hm2, hm1]
    norm_num
  · rw [show (2 + 1 : ℕ) = 3 from rfl, hm2, hm3]
    norm_num
  · rw [hminb, hmaxb, hmax, hm2]
    unfold NewFFTDetector
    norm_num

end TuneNote
